import Mathlib

/-!
Verification of the bfiles bundle codec against its implementation.

The Python implementation is shallowly embedded: file content and wire
bytes are modelled as `List Char` (one `Char` per code point; the codec
manipulates decoded text, and the byte-level operations in the extractor
act on UTF-8 byte strings that the model treats as the same sequence),
machine integers as `Nat`, fallible operations as `Option`/`Except`, and
the bundler's loop state as explicit fold arguments.  Each definition
mirrors one function of the source tree (named in its doc comment).
-/

namespace Bfiles

/-- Text alias used throughout: a Python `str` (or a UTF-8 byte string in
the extractor) as a list of characters. -/
abbrev Str := List Char

/-- Characters Python `str.strip()` removes (CPython's unicode whitespace
table, `str.isspace()`): tab through CR, the separators `0x1C`-`0x1F`,
space, NEL `0x85`, NBSP `0xA0`, and the unicode space separators. -/
def isPySpace (c : Char) : Bool :=
  let n := c.toNat
  (9 ≤ n && n ≤ 13) || (28 ≤ n && n ≤ 31) || n = 32 || n = 0x85 || n = 0xA0 ||
    n = 0x1680 || (0x2000 ≤ n && n ≤ 0x200A) || n = 0x2028 || n = 0x2029 ||
    n = 0x202F || n = 0x205F || n = 0x3000

/-- Model of Python `str.strip()`: drop leading and trailing whitespace. -/
def pyStrip (s : Str) : Str :=
  ((s.dropWhile isPySpace).reverse.dropWhile isPySpace).reverse

/-- Accumulator form of `readLines`: `acc` holds the current (unfinished)
line reversed. -/
def readLinesAux : Str → Str → List Str
  | [], acc => if acc.isEmpty then [] else [acc.reverse]
  | c :: rest, acc =>
    if c = '\n' then (acc.reverse ++ ['\n']) :: readLinesAux rest []
    else readLinesAux rest (c :: acc)

/-- Model of Python `file.readlines()` as used by
`BundleParser._read_lines` (parser.py) on an already
universal-newline-translated stream (the translation that text-mode
`open` performs is `universalNewlines` below, applied separately): split
the stream into lines, each keeping its trailing newline; a final
fragment without a newline is kept as a last line. -/
def readLines (s : Str) : List Str :=
  readLinesAux s []

/-- Universal-newline translation performed by every text-mode read the
codec does — `read_text` in `FileReader._read_with_primary_encoding`
(reader.py line 116) and `open("r", ...)` in
`BundleParser._read_lines` (parser.py line 72): `\r\n` and lone `\r`
both become `\n`. -/
def universalNewlines : Str → Str
  | [] => []
  | [c] => if c = '\r' then ['\n'] else [c]
  | c :: d :: rest =>
    if c = '\r' then
      if d = '\n' then '\n' :: universalNewlines rest
      else '\n' :: universalNewlines (d :: rest)
    else c :: universalNewlines (d :: rest)

/-- The BOF sentinel text compared by `BundleParser.parse` (parser.py,
`strip() != "<<< BOF <<<"`). -/
def bofMarker : Str := "<<< BOF <<<".toList

/-- The EOF sentinel text compared by `BundleParser.parse` (parser.py,
`strip() == ">>> EOF >>>"`). -/
def eofMarker : Str := ">>> EOF >>>".toList

/-- Content scan of `BundleParser.parse` (parser.py lines 260-269): after
the BOF line, collect raw lines verbatim until a line strips to the EOF
marker; if the stream ends without one the parse is a hard failure
(`none`). -/
def scanContentLines : List Str → Option Str
  | [] => none
  | l :: rest =>
    if pyStrip l = eofMarker then some []
    else (scanContentLines rest).map (fun c => l ++ c)

/-- Entry-body parse of `BundleParser.parse` (parser.py lines 248-276):
require the next line to strip to the BOF marker, then scan to the EOF
marker and return everything in between joined verbatim. -/
def parseEntryContent (lines : List Str) : Option Str :=
  match lines with
  | [] => none
  | l :: rest => if pyStrip l = bofMarker then scanContentLines rest else none

/-- Body written by `Bundler._write_single_file` (bundler.py lines
369-374) for a non-empty operation: the raw content, with one newline
appended when the content is non-empty and does not already end with
one (`if content: write content; if not content.endswith("\n"): write "\n"`). -/
def writeSingleBody (content : Str) : Str :=
  if content = [] then []
  else content ++ (if content.getLast? = some '\n' then [] else ['\n'])

/-- Full block emitted by `Bundler._write_single_file` after the metadata
line: BOF line, body, EOF line, blank line. -/
def writeSingleFileBlock (content : Str) : Str :=
  (bofMarker ++ ['\n']) ++ writeSingleBody content ++ (eofMarker ++ ['\n']) ++ ['\n']

/-- Block emitted by `Bundler._write_empty_file` (bundler.py line 357):
the literal text `"<<< BOF <<<\n\n>>> EOF >>>\n\n"`. -/
def writeEmptyFileBlock : Str :=
  (bofMarker ++ ['\n']) ++ ['\n'] ++ (eofMarker ++ ['\n']) ++ ['\n']

/-- Content adjustment of `FileExtractor.extract_file` (extractor.py lines
215-216): an entry flagged empty whose parsed content is exactly one
newline becomes empty content. -/
def extractAdjustContent (isEmpty : Bool) (content : Str) : Str :=
  if isEmpty ∧ content = ['\n'] then [] else content

/-- Model of `FileReader._clean_content` (reader.py lines 144-158): every
null character is removed from the decoded content before any further
processing. -/
def cleanContent (content : Str) : Str :=
  content.filter (fun c => c ≠ Char.ofNat 0)

/-- Round trip of one non-chunked included file through the codec,
starting from the characters on disk: `FileReader.read` decodes with
universal newlines and strips nulls, `Bundler._write_single_file`
produces the block, `BundleParser._read_lines` reads the bundle back in
text mode (universal newlines again) and `BundleParser.parse` recovers
the content between the markers, which
`FileExtractor.determine_content`/`extract_file` write out unchanged (an
included entry is not flagged empty).  The model covers the scan up to
the first line that strips to the EOF sentinel; on content containing
such a line the real parser truncates there and then fails the whole
parse, so the round-trip theorem excludes it by hypothesis. -/
def roundTripSingle (raw : Str) : Option Str :=
  (parseEntryContent (readLines (universalNewlines
      (writeSingleFileBlock (cleanContent (universalNewlines raw)))))).map
    (extractAdjustContent false)

/-! Chunker (chunking.py `FileChunker._split_tokens`) and the
configuration validator (config.py `BfilesConfig.validate`). -/

/-- Subset of `BfilesConfig` (config.py) the claims depend on. -/
structure BundleConfig where
  allowUnsafe : Bool := false
  sanitizeUnsafe : Bool := false
  chunkSize : Option Nat := none
  chunkOverlap : Nat := 0
deriving DecidableEq, Repr

/-- Pure checks of `BfilesConfig.validate` (config.py lines 165-205) on
the configuration values themselves: the only value check performed is
that `allow_unsafe` and `sanitize_unsafe` are not both set (lines
176-180); `chunk_size` and `chunk_overlap` are not examined (errors.py
defines `ChunkSizeError` for an invalid size/overlap configuration, but
nothing raises it).  Returns `true` when validation passes. -/
def validateConfig (c : BundleConfig) : Bool :=
  !(c.allowUnsafe && c.sanitizeUnsafe)

/-- Position update of the `while` loop in `FileChunker._split_tokens`
(chunking.py lines 132-141): advance by `chunk_size`, then back up by
`chunk_overlap` when more tokens remain and the overlap is positive. -/
def splitNextPos (size overlap len pos : Nat) : Nat :=
  if pos + size < len ∧ 0 < overlap then pos + size - overlap else pos + size

/-- Fuelled unfolding of the `while current_pos < len(tokens)` loop of
`FileChunker._split_tokens`: each iteration appends the slice
`tokens[pos : pos + size]` and moves to `splitNextPos`; `none` means the
fuel ran out with the loop guard still true (the Python loop would still
be running). -/
def splitTokensGo (size overlap : Nat) (tokens : List Nat) :
    Nat → Nat → Option (List (List Nat))
  | 0, pos => if pos < tokens.length then none else some []
  | fuel + 1, pos =>
    if pos < tokens.length then
      match splitTokensGo size overlap tokens fuel
          (splitNextPos size overlap tokens.length pos) with
      | some rest => some (((tokens.drop pos).take size) :: rest)
      | none => none
    else some []

/-- Model of `FileChunker._split_tokens` (chunking.py lines 117-142),
with fuel `tokens.length + 1` — enough for every configuration on which
the Python loop terminates. -/
def splitTokens (size overlap : Nat) (tokens : List Nat) : Option (List (List Nat)) :=
  splitTokensGo size overlap tokens (tokens.length + 1) 0

/-- Concatenation of windows after dropping each later window's leading
`overlap` tokens, as in the chunk-coverage property. -/
def joinDropOverlap (overlap : Nat) : List (List Nat) → List Nat
  | [] => []
  | c :: rest => c ++ (rest.map (List.drop overlap)).flatten

/-- Window overlap relation: a window starts `overlap` tokens before the
previous window's end exactly when its leading `overlap` tokens repeat
the previous window's trailing `overlap` tokens. -/
def windowOverlapRel (overlap : Nat) (a b : List Nat) : Prop :=
  b.take overlap = a.drop (a.length - overlap)

/-! Dangerous-character utilities (utils.py), the reader's null cleanup
(reader.py), and the bundler's per-file processing loop (bundler.py
`Bundler._process_files`). -/

/-- Safe whitespace control codes `_SAFE_WHITESPACE` (utils.py line 213):
tab, LF, VT, FF, CR. -/
def isSafeWhitespaceCode (n : Nat) : Bool :=
  n = 9 || n = 10 || n = 11 || n = 12 || n = 13

/-- A dangerous control character per `has_dangerous_chars` (utils.py
lines 241-247): code point in `0x00`-`0x1F` and not safe whitespace. -/
def isDangerousChar (c : Char) : Bool :=
  c.toNat ≤ 0x1F && !isSafeWhitespaceCode c.toNat

/-- Boolean result of `has_dangerous_chars` (utils.py lines 216-254); the
accompanying position list is only logged and capped at ten entries, so
the model keeps the flag alone. -/
def hasDangerousChars (content : Str) : Bool :=
  content.any isDangerousChar

/-- Mnemonic table `_CONTROL_CHAR_NAMES` (utils.py lines 177-210). -/
def controlCharName (n : Nat) : Str :=
  (match n with
  | 0x00 => "NUL" | 0x01 => "SOH" | 0x02 => "STX" | 0x03 => "ETX"
  | 0x04 => "EOT" | 0x05 => "ENQ" | 0x06 => "ACK" | 0x07 => "BEL"
  | 0x08 => "BS" | 0x09 => "TAB" | 0x0A => "LF" | 0x0B => "VT"
  | 0x0C => "FF" | 0x0D => "CR" | 0x0E => "SO" | 0x0F => "SI"
  | 0x10 => "DLE" | 0x11 => "DC1" | 0x12 => "DC2" | 0x13 => "DC3"
  | 0x14 => "DC4" | 0x15 => "NAK" | 0x16 => "SYN" | 0x17 => "ETB"
  | 0x18 => "CAN" | 0x19 => "EM" | 0x1A => "SUB" | 0x1B => "ESC"
  | 0x1C => "FS" | 0x1D => "GS" | 0x1E => "RS" | 0x1F => "US"
  | _ => "").toList

/-- Per-character branch of the `sanitize_dangerous_chars` loop (utils.py
lines 284-298): control characters keep safe whitespace and replace the
rest by the bracketed mnemonic; other characters pass through.  The
table covers every code the control branch can reach, so the hex
fallback of line 294 is unreachable. -/
def sanitizeCharPiece (c : Char) : Str :=
  if c.toNat ≤ 0x1F then
    if isSafeWhitespaceCode c.toNat then [c]
    else '[' :: (controlCharName c.toNat ++ [']'])
  else [c]

/-- Model of `sanitize_dangerous_chars` (utils.py lines 257-300). -/
def sanitizeDangerousChars (content : Str) : Str :=
  (content.map sanitizeCharPiece).flatten

/-- Operation states of `FileMetadata` (metadata.py `_VALID_OPERATIONS`). -/
inductive Op where
  | included
  | empty
  | duplicate
  | excluded
  | error
  | skipped
deriving DecidableEq, Repr

/-- A candidate file as the bundler sees it: its identity (the model
stands a `Nat` in for the path) and its raw on-disk character content.
The content hash of `FileMetadata.from_path` is modelled by the raw
content itself, a collision-free content address. -/
structure SimFile where
  path : Nat
  raw : Str
deriving DecidableEq, Repr

/-- One archive entry as `Bundler._process_files` emits it: operation,
the referenced first-seen path for duplicates, and the body written
between the BOF/EOF markers (`none` when no block is emitted at all). -/
structure Emitted where
  path : Nat
  op : Op
  original : Option Nat
  body : Option Str
deriving DecidableEq, Repr

/-- Lookup in the `file_hash_map` dict of `Bundler._process_files`. -/
def lookupHash : List (Str × Nat) → Str → Option Nat
  | [], _ => none
  | (k, v) :: rest, c => if k = c then some v else lookupHash rest c

/-- One iteration of `Bundler._process_files` (bundler.py lines 118-256)
for a candidate that is not excluded, not past `max_files` and readable:
size 0 is an empty entry with an empty block (lines 167-172); a content
hash already in `file_hash_map` becomes a `duplicate` entry with
`original` set to the first-seen path and no block (lines 174-183); an
included file registers its hash first (lines 185-187), then reads its
(null-cleaned) content and applies the dangerous-character tri-state
(lines 199-240): default demotes to `excluded` with no block,
`allow_unsafe` writes the content as read, `sanitize_unsafe` writes the
sanitized content.  Chunking is disabled (`chunk_size = None`), so the
body is the one of `_write_single_file`. -/
def processOne (cfg : BundleConfig) (hm : List (Str × Nat)) (f : SimFile) :
    List (Str × Nat) × Emitted :=
  if f.raw = [] then (hm, ⟨f.path, Op.empty, none, some ['\n']⟩)
  else
    match lookupHash hm f.raw with
    | some orig => (hm, ⟨f.path, Op.duplicate, some orig, none⟩)
    | none =>
      let hm2 := (f.raw, f.path) :: hm
      let content := cleanContent f.raw
      if hasDangerousChars content then
        if cfg.allowUnsafe = false ∧ cfg.sanitizeUnsafe = false then
          (hm2, ⟨f.path, Op.excluded, none, none⟩)
        else if cfg.allowUnsafe then
          (hm2, ⟨f.path, Op.included, none, some (writeSingleBody content)⟩)
        else
          (hm2, ⟨f.path, Op.included, none,
            some (writeSingleBody (sanitizeDangerousChars content))⟩)
      else (hm2, ⟨f.path, Op.included, none, some (writeSingleBody content)⟩)

/-- The `for` loop of `Bundler._process_files` threading `file_hash_map`
through `processOne`. -/
def processFilesGo (cfg : BundleConfig) (hm : List (Str × Nat)) :
    List SimFile → List Emitted
  | [] => []
  | f :: rest =>
    let step := processOne cfg hm f
    step.2 :: processFilesGo cfg step.1 rest

/-- Model of `Bundler._process_files` on a sorted candidate list, started
with an empty hash map. -/
def processFiles (cfg : BundleConfig) (files : List SimFile) : List Emitted :=
  processFilesGo cfg [] files

/-- Statement of the dedup-uniqueness claim, written from the spec: among
processed files, an empty file is an `empty` entry; otherwise the file
whose content appears for the first time (in candidate order) is the one
`included` entry with a content body, and every later file with the same
content is a `duplicate` entry referencing that first-seen path, with no
body at all. -/
def specDedupEmit (prev : List SimFile) (f : SimFile) : Emitted :=
  if f.raw = [] then ⟨f.path, Op.empty, none, some ['\n']⟩
  else
    match prev.find? (fun g => decide (g.raw = f.raw)) with
    | some g => ⟨f.path, Op.duplicate, some g.path, none⟩
    | none => ⟨f.path, Op.included, none, some (writeSingleBody (cleanContent f.raw))⟩

/-- The spec-side run: each file is emitted from the files before it. -/
def specDedupProcess (prev : List SimFile) : List SimFile → List Emitted
  | [] => []
  | f :: rest => specDedupEmit prev f :: specDedupProcess (prev ++ [f]) rest

/-- The bundler's `file_hash_map` agrees with first-occurrence search over
the already-processed files. -/
def hashMapInv (hm : List (Str × Nat)) (prev : List SimFile) : Prop :=
  ∀ c : Str, c ≠ [] →
    lookupHash hm c = (prev.find? (fun g => decide (g.raw = c))).map SimFile.path

/-! Empty-file entries (bundler.py `_write_empty_file`, extractor.py
`is_empty_file`). -/

/-- First-match lookup in a parsed metadata dict (the parser stores at
most one value per key). -/
def lookupMeta : List (Str × Str) → Str → Option Str
  | [], _ => none
  | (k, v) :: rest, key => if k = key then some v else lookupMeta rest key

/-- Model of `FileExtractor.is_empty_file` (extractor.py line 303): the
entry is empty when its metadata has `op = 0`, or its `size` value
upper-cases to `0B`. -/
def isEmptyFileMeta (md : List (Str × Str)) : Bool :=
  decide (lookupMeta md "op".toList = some ['0']) ||
    decide (((lookupMeta md "size".toList).getD []).map Char.toUpper = "0B".toList)

/-! Chunk reassembly (extractor.py `FileExtractor.reassemble_chunks` and
`_handle_chunk_overlap`), at the level of UTF-8 byte strings. -/

/-- A parsed chunk entry (parser.py `ParsedFileEntry`) with the fields
reassembly reads; `overlapPrev` is the `overlap_prev` metadata value as
`_get_overlap_bytes` decodes it (absent or non-digits mean `0`). -/
structure ChunkEntry where
  content : Str
  isChunk : Bool
  chunkNum : Option Nat
  totalChunks : Option Nat
  overlapPrev : Option Nat
deriving DecidableEq, Repr

/-- Logical content of `_handle_chunk_overlap` (extractor.py lines
166-169): the assembled text with one trailing synthetic newline
stripped when present. -/
def pyLogical (l : Str) : Str :=
  if l.getLast? = some '\n' then l.dropLast else l

/-- Model of `FileExtractor._handle_chunk_overlap` (extractor.py lines
144-197): `none` when either side is shorter than the declared overlap,
when the newline-stripped logical content is shorter, or when the two
byte spans differ; otherwise the chunk's content past the overlap. -/
def handleChunkOverlap (assembled chunk : Str) (k : Nat) : Option Str :=
  if assembled.length < k ∨ chunk.length < k then none
  else
    let logical := pyLogical assembled
    if logical.length < k then none
    else if logical.drop (logical.length - k) = chunk.take k then some (chunk.drop k)
    else none

/-- The piece appended for one later chunk in `reassemble_chunks`
(extractor.py lines 107-126): with a positive declared overlap, the
non-overlapping part when `_handle_chunk_overlap` returns a non-empty
string, and the full chunk content otherwise — the caller tests the
result with `if non_overlapping:`, so an empty string falls back exactly
like a failure. -/
def chunkAppend (acc : Str) (e : ChunkEntry) : Str :=
  let k := e.overlapPrev.getD 0
  if 0 < k then
    match handleChunkOverlap acc e.content k with
    | some nonov => if nonov = [] then e.content else nonov
    | none => e.content
  else e.content

/-- The reassembly fold of `reassemble_chunks`: the first chunk's content
seeds the accumulator and each later chunk appends its piece. -/
def reassembleGo (acc : Str) : List ChunkEntry → Str
  | [] => acc
  | e :: rest => reassembleGo (acc ++ chunkAppend acc e) rest

/-- The missing-chunk validation of `reassemble_chunks` (extractor.py
lines 86-90): `if expected_total and len(entries) != expected_total` —
an absent or zero declared total skips the check. -/
def totalOk (entries : List ChunkEntry) : Bool :=
  match entries with
  | [] => true
  | e0 :: _ =>
    match e0.totalChunks with
    | some t => decide (t = 0) || decide (entries.length = t)
    | none => true

/-- Model of `FileExtractor.reassemble_chunks` (extractor.py lines
70-135): error on an empty group (the caller raises for it), on mixed
chunk flags, or on a wrong chunk count; otherwise the reassembly fold,
which never raises. -/
def reassembleChunks (entries : List ChunkEntry) : Except Str Str :=
  match entries with
  | [] => Except.error "no entries".toList
  | e0 :: rest =>
    if ¬ (e0 :: rest).all (fun e => e.isChunk) then
      Except.error "mixed chunked and non-chunked entries".toList
    else if ¬ totalOk (e0 :: rest) then Except.error "missing chunks".toList
    else Except.ok (reassembleGo e0.content rest)

/-! Path safety on extraction (unbundler.py `Unbundler._extract_files`
with extractor.py `validate_and_resolve_path`).  The safety predicate
itself lives in the external collaborator library
(provide.foundation.archive.security `is_safe_path`), outside this
repository, so it is modelled from the spec. -/

/-- A relative path string from a parsed entry, split into whether it is
absolute and its slash-separated segments. -/
structure RelPath where
  isAbs : Bool
  segs : List String
deriving DecidableEq, Repr

/-- Modelled from the spec: the escape check inside the external
`is_safe_path` (spec section 4.8) — walking the segments with the
current depth below the root, a `..` at depth zero escapes; `.` and
empty segments do not move. -/
def escapesRoot : Nat → List String → Bool
  | _, [] => false
  | d, s :: rest =>
    if s = ".." then (if d = 0 then true else escapesRoot (d - 1) rest)
    else if s = "." ∨ s = "" then escapesRoot d rest
    else escapesRoot (d + 1) rest

/-- Modelled from the spec: `is_safe_path(output_root, relative)` of
provide.foundation (consumed by `validate_and_resolve_path`, extractor.py
line 49) — reject a path that is absolute or whose normalization escapes
the output root via `..` segments (spec section 4.8). -/
def isSafePath (rel : RelPath) : Bool :=
  !rel.isAbs && !escapesRoot 0 rel.segs

/-- Filesystem path resolution of `(output_root / rel).resolve()`
(extractor.py line 59): segments are applied to the absolute segment
stack, `..` popping one (staying at the filesystem root when empty), so
an unsafe relative path really resolves outside the output root. -/
def resolveSegs (stack : List String) : List String → List String
  | [] => stack
  | s :: rest =>
    if s = ".." then resolveSegs stack.dropLast rest
    else if s = "." ∨ s = "" then resolveSegs stack rest
    else resolveSegs (stack ++ [s]) rest

/-- Target of `validate_and_resolve_path` once the safety check passed;
pathlib semantics make an absolute relative path replace the root. -/
def resolveTarget (root : List String) (rel : RelPath) : List String :=
  if rel.isAbs then resolveSegs [] rel.segs else resolveSegs root rel.segs

/-- The extraction loop `Unbundler._extract_files` (unbundler.py lines
222-258) as the list of paths written: an entry failing
`validate_and_resolve_path` is skipped with `continue`; every other
entry is written at its resolved target; no entry aborts the loop. -/
def extractFilesTargets (root : List String) (entries : List RelPath) :
    List (List String) :=
  entries.filterMap (fun e => if isSafePath e then some (resolveTarget root e) else none)

/-! Overwrite protection of `FileExtractor.extract_file` (extractor.py
lines 199-265). -/

/-- Lookup in the modelled filesystem (target path to file content). -/
def fsLookup : List (List String × Str) → List String → Option Str
  | [], _ => none
  | (p, c) :: rest, q => if p = q then some c else fsLookup rest q

/-- Model of `FileExtractor.extract_file`: the empty-content adjustment,
the dry-run early return, the `target_path.exists() and not
force_overwrite` skip returning `False` before anything is written, and
otherwise an atomic write of the content at the target (the OS-error
paths that also return `False` leave the filesystem unchanged and are
not modelled). -/
def extractFile (fs : List (List String × Str)) (forceOverwrite dryRun : Bool)
    (target : List String) (content : Str) (isEmpty : Bool) :
    List (List String × Str) × Bool :=
  let adjusted := extractAdjustContent isEmpty content
  if dryRun then (fs, true)
  else if (fsLookup fs target).isSome ∧ ¬ forceOverwrite then (fs, false)
  else ((target, adjusted) :: fs, true)

/-! Metadata line writing (metadata_writer.py
`MetadataWriter.format_metadata`) and the parser's key/value splitter
(parser.py `BundleParser._parse_metadata_kv_str`). -/

/-- Decimal rendering of an integer value, as Python string formatting
produces it. -/
def natChars (n : Nat) : Str := (toString n).toList

/-- The `FileMetadata` fields that reach `format_metadata` for one entry
(metadata.py): the modified timestamp is kept as its already-formatted
ISO text. -/
structure MetaFields where
  modified : Str
  size : Nat
  checksum : Option Str
  fileType : Option Str
  tokenCount : Option Nat
  overlapPrev : Option Nat
  opCode : Char
  original : Option Str
deriving DecidableEq, Repr

/-- The `key=value` items `format_metadata` collects (metadata_writer.py
lines 74-116), in `attrs.asdict` field order with `None` values skipped:
`size`, `modified`, `type`, the checksum truncated to 12 characters plus
an ellipsis, `tokens`, `overlap_prev`, then the operation code and, for
duplicates, the original path. -/
def metadataItems (m : MetaFields) : List Str :=
  ["size=".toList ++ natChars m.size, "modified=".toList ++ m.modified]
    ++ (match m.fileType with
        | some t => ["type=".toList ++ t]
        | none => [])
    ++ (match m.checksum with
        | some c => ["checksum=".toList ++ (c.take 12 ++ "...".toList)]
        | none => [])
    ++ (match m.tokenCount with
        | some n => ["tokens=".toList ++ natChars n]
        | none => [])
    ++ (match m.overlapPrev with
        | some n => ["overlap_prev=".toList ++ natChars n]
        | none => [])
    ++ ["op=".toList ++ [m.opCode]]
    ++ (match m.original with
        | some o => ["original=".toList ++ o]
        | none => [])

/-- Python string comparison (code-point lexicographic, `≤`). -/
def lexLe : Str → Str → Bool
  | [], _ => true
  | _ :: _, [] => false
  | x :: xs, y :: ys =>
    if x.toNat < y.toNat then true
    else if y.toNat < x.toNat then false
    else lexLe xs ys

def insertSorted (x : Str) : List Str → List Str
  | [] => [x]
  | y :: ys => if lexLe x y then x :: y :: ys else y :: insertSorted x ys

/-- Python `sorted` on the item strings (all items differ in their key
prefix, so stability is moot). -/
def sortItems : List Str → List Str
  | [] => []
  | x :: xs => insertSorted x (sortItems xs)

/-- Python `sep.join(items)`. -/
def joinSep (sep : Str) : List Str → Str
  | [] => []
  | [x] => x
  | x :: xs => x ++ sep ++ joinSep sep xs

/-- The metadata portion of the entry line: metadata_writer.py line 119,
`" | ".join(sorted(metadata_items))`. -/
def formatMetadataStr (m : MetaFields) : Str :=
  joinSep " | ".toList (sortItems (metadataItems m))

/-- The full entry header line from the default template
`### FILE {file_num}: {file_path} | {metadata} ###` (config.py line 41,
metadata_writer.py lines 131-135), with the chunk suffix already part of
the display path. -/
def formatMetadataLine (n : Nat) (displayPath : Str) (m : MetaFields) : Str :=
  "### FILE ".toList ++ natChars n ++ ": ".toList ++ displayPath
    ++ " | ".toList ++ formatMetadataStr m ++ " ###".toList

/-- Python `s.split(sep)` for a one-character separator. -/
def splitOnChar (sep : Char) : Str → List Str
  | [] => [[]]
  | c :: rest =>
    match splitOnChar sep rest with
    | [] => if c = sep then [[], []] else [[c]]
    | h :: t => if c = sep then [] :: h :: t else (c :: h) :: t

/-- Python `pair.split("=", 1)` when an `=` is present. -/
def splitOnFirstEq : Str → Option (Str × Str)
  | [] => none
  | c :: rest =>
    if c = '=' then some ([], rest)
    else (splitOnFirstEq rest).map (fun p => (c :: p.1, p.2))

/-- Python dict assignment `metadata[key] = value`. -/
def metaUpdate (md : List (Str × Str)) (k v : Str) : List (Str × Str) :=
  match md with
  | [] => [(k, v)]
  | (k2, v2) :: rest => if k2 = k then (k, v) :: rest else (k2, v2) :: metaUpdate rest k v

/-- Model of `BundleParser._parse_metadata_kv_str` (parser.py lines
91-105): split the captured metadata string on `;`, then split each
piece at its first `=` into a stripped key and value (a piece without
`=` becomes a key with empty value when non-blank). -/
def parseMetadataKvStr (s : Str) : List (Str × Str) :=
  if s = [] then []
  else
    (splitOnChar ';' s).foldl
      (fun md pair =>
        match splitOnFirstEq pair with
        | some (k, v) => metaUpdate md (pyStrip k) (pyStrip v)
        | none => if pyStrip pair = [] then md else metaUpdate md (pyStrip pair) [])
      []

/-- A representative included-file metadata record. -/
def exampleIncludedMeta : MetaFields :=
  { modified := "2024-05-02T10:30:00".toList
    size := 1024
    checksum := some "a1b2c3d4e5f6a7b8".toList
    fileType := some "x-python".toList
    tokenCount := some 7
    overlapPrev := none
    opCode := '+'
    original := none }

/-! Line-splitting facts used to read the writer's output back. -/

theorem readLinesAux_join (s : Str) :
    ∀ acc, (readLinesAux s acc).flatten = acc.reverse ++ s := by
  induction s with
  | nil =>
    intro acc
    by_cases h : acc.isEmpty
    · simp [readLinesAux, h, List.isEmpty_iff.mp h]
    · simp [readLinesAux, h]
  | cons c rest ih =>
    intro acc
    by_cases h : c = '\n'
    · subst h
      simp [readLinesAux, ih]
    · simp [readLinesAux, h, ih]

/-- Joining the lines of a stream gives back the stream. -/
theorem readLines_join (s : Str) : (readLines s).flatten = s := by
  simpa using readLinesAux_join s []

theorem readLinesAux_append_newline (s t : Str) :
    ∀ acc, readLinesAux (s ++ '\n' :: t) acc =
      readLinesAux (s ++ ['\n']) acc ++ readLines t := by
  induction s with
  | nil =>
    intro acc
    simp [readLinesAux, readLines]
  | cons c rest ih =>
    intro acc
    by_cases h : c = '\n'
    · subst h
      simp [readLinesAux, ih]
    · simp [readLinesAux, h, ih]

/-- Lines of a concatenation split at a newline boundary. -/
theorem readLines_append (s t : Str) (h : s.getLast? = some '\n') :
    readLines (s ++ t) = readLines s ++ readLines t := by
  rcases List.eq_nil_or_concat s with rfl | ⟨s', c, rfl⟩
  · simp at h
  · have hc : c = '\n' := by
      simpa using h
    subst hc
    simp only [readLines, List.concat_eq_append]
    rw [List.append_assoc, List.singleton_append]
    exact readLinesAux_append_newline s' t []

theorem scanContentLines_append (ls rest : List Str) (e : Str)
    (hpass : ∀ l ∈ ls, pyStrip l ≠ eofMarker) (hstop : pyStrip e = eofMarker) :
    scanContentLines (ls ++ e :: rest) = some ls.flatten := by
  induction ls with
  | nil => simp [scanContentLines, hstop]
  | cons l ls ih =>
    have hl : pyStrip l ≠ eofMarker := hpass l (by simp)
    have ihh := ih (fun x hx => hpass x (by simp [hx]))
    simp [scanContentLines, hl, ihh]

/-- Universal-newline translation is the identity on CR-free text. -/
theorem universalNewlines_of_no_cr :
    ∀ s : Str, (∀ c ∈ s, c ≠ '\r') → universalNewlines s = s := by
  intro s
  induction s with
  | nil => intro _; rfl
  | cons c rest ih =>
    intro h
    have hc : c ≠ '\r' := h c (by simp)
    have hrest : ∀ x ∈ rest, x ≠ '\r' := fun x hx => h x (by simp [hx])
    cases rest with
    | nil => simp [universalNewlines, hc]
    | cons d rest2 =>
      have hd := ih hrest
      simp [universalNewlines, hc, hd]

/-- The writer's block contains no carriage return when the content has
none: the markers are CR-free and the forced newline is an LF. -/
theorem writeSingleFileBlock_no_cr (content : Str) (h : ∀ c ∈ content, c ≠ '\r') :
    ∀ c ∈ writeSingleFileBlock content, c ≠ '\r' := by
  intro c hc
  have hmark : ∀ x ∈ bofMarker ++ ['\n'], x ≠ '\r' := by decide
  have hmark2 : ∀ x ∈ eofMarker ++ ['\n'], x ≠ '\r' := by decide
  have hbody : ∀ x ∈ writeSingleBody content, x ≠ '\r' := by
    intro x hx
    unfold writeSingleBody at hx
    by_cases hne : content = []
    · simp [hne] at hx
    · rw [if_neg hne] at hx
      rcases List.mem_append.mp hx with h1 | h1
      · exact h x h1
      · by_cases hlast : content.getLast? = some '\n'
        · simp [hlast] at h1
        · simp [hlast] at h1
          subst h1
          decide
  unfold writeSingleFileBlock at hc
  rcases List.mem_append.mp hc with h1 | h1
  · rcases List.mem_append.mp h1 with h2 | h2
    · rcases List.mem_append.mp h2 with h3 | h3
      · exact hmark c h3
      · exact hbody c h3
    · exact hmark2 c h2
  · simp at h1
    subst h1
    decide

/-- C1 counterexample: the claim asserts byte-identical round trips for
every included decodable text file, but the writer forces a trailing
newline (bundler.py lines 373-374) that extraction never removes, so
`"hello"` comes back as `"hello\n"`; and the text-mode reads translate
newlines universally, so the CRLF file `"a\r\nb\n"` comes back as
`"a\nb\n"`. -/
theorem roundTripSingle_counterexample :
    (roundTripSingle "hello".toList = some "hello\n".toList ∧
      "hello\n".toList ≠ "hello".toList) ∧
    (roundTripSingle "a\r\nb\n".toList = some "a\nb\n".toList ∧
      "a\nb\n".toList ≠ "a\r\nb\n".toList) := by
  refine ⟨⟨by decide, by decide⟩, ⟨by decide, by decide⟩⟩

/-- C1 (amended): extracting the bundle of a non-chunked included file
reproduces the on-disk content byte-for-byte when that content survives
the text-mode read unchanged — it has no carriage return
(universal-newline translation turns `\r\n` and lone `\r` into `\n`)
and no null (the reader strips them) — and it is empty or ends with a
newline, and none of its lines strips to the EOF sentinel (such a line
truncates the entry scan, after which the real parser fails the whole
bundle).  Content without a trailing newline gains exactly one. -/
theorem roundTripSingle_eq (raw : Str)
    (hcr : ∀ c ∈ raw, c ≠ '\r')
    (hnul : ∀ c ∈ raw, c ≠ Char.ofNat 0)
    (hend : raw = [] ∨ raw.getLast? = some '\n')
    (hlines : ∀ l ∈ readLines raw, pyStrip l ≠ eofMarker) :
    roundTripSingle raw = some raw := by
  have hun : universalNewlines raw = raw := universalNewlines_of_no_cr raw hcr
  have hcl : cleanContent raw = raw := by
    unfold cleanContent
    apply List.filter_eq_self.mpr
    intro c hc
    simpa using hnul c hc
  have hblk : universalNewlines (writeSingleFileBlock raw) = writeSingleFileBlock raw :=
    universalNewlines_of_no_cr _ (writeSingleFileBlock_no_cr raw hcr)
  rw [roundTripSingle, hun, hcl, hblk]
  rcases hend with rfl | hend
  · decide
  · have hne : raw ≠ [] := by
      rintro rfl
      simp at hend
    have hb : writeSingleBody raw = raw := by
      simp [writeSingleBody, hne, hend]
    have hbof : readLines (bofMarker ++ ['\n']) = [bofMarker ++ ['\n']] := by decide
    have heof : readLines ((eofMarker ++ ['\n']) ++ ['\n']) =
        [eofMarker ++ ['\n'], ['\n']] := by decide
    have h1 : readLines (writeSingleFileBlock raw) =
        (bofMarker ++ ['\n']) :: (readLines raw ++ [eofMarker ++ ['\n'], ['\n']]) := by
      rw [writeSingleFileBlock, hb]
      have hassoc : bofMarker ++ ['\n'] ++ raw ++ (eofMarker ++ ['\n']) ++ ['\n'] =
          (bofMarker ++ ['\n']) ++ (raw ++ ((eofMarker ++ ['\n']) ++ ['\n'])) := by
        simp [List.append_assoc]
      rw [hassoc, readLines_append (bofMarker ++ ['\n']) _ (by decide),
        readLines_append raw _ hend, hbof, heof]
      simp
    have h2 : scanContentLines (readLines raw ++ [eofMarker ++ ['\n'], ['\n']]) =
        some (readLines raw).flatten := by
      have := scanContentLines_append (readLines raw) [['\n']]
        (eofMarker ++ ['\n']) hlines (by decide)
      simpa using this
    rw [h1, parseEntryContent]
    simp only [show pyStrip (bofMarker ++ ['\n']) = bofMarker from by decide, if_pos rfl]
    rw [h2, readLines_join]
    simp [extractAdjustContent]

/-- C1 witness: a concrete newline-terminated CR-free file round-trips
exactly. -/
theorem roundTripSingle_eq_witness :
    roundTripSingle "hi\n".toList = some "hi\n".toList :=
  roundTripSingle_eq "hi\n".toList (by decide) (by decide) (by decide) (by decide)

/-- C3: the claim (and spec §4.4) requires `chunk_overlap ≥ chunk_size` to
be rejected at configuration time; the code accepts it — `validate` only
checks the safety-flag pair — and `_split_tokens` then makes no progress:
on 11 tokens with size 10 and overlap 10 the loop never terminates (the
window start returns to 0 after every iteration), shown here as `none`
for every amount of fuel. -/
theorem validateConfig_accepts_bad_overlap :
    validateConfig { allowUnsafe := false, sanitizeUnsafe := false,
                     chunkSize := some 10, chunkOverlap := 10 } = true ∧
      ∀ fuel : Nat, splitTokensGo 10 10 (List.range 11) fuel 0 = none := by
  refine ⟨rfl, ?_⟩
  intro fuel
  induction fuel with
  | zero => decide
  | succ n ih =>
    have hpos : splitNextPos 10 10 (List.range 11).length 0 = 0 := by decide
    simp only [splitTokensGo, hpos, ih]
    decide

theorem splitTokensGo_sound (size ov : Nat) (tokens : List Nat) (hov : ov < size) :
    ∀ fuel pos, tokens.length - pos < fuel →
      ∃ cs, splitTokensGo size ov tokens fuel pos = some cs ∧
        (match cs with
          | [] => tokens.length ≤ pos
          | c :: _ => c = (tokens.drop pos).take size ∧ pos < tokens.length) ∧
        joinDropOverlap ov cs = tokens.drop pos ∧
        List.Chain' (windowOverlapRel ov) cs := by
  intro fuel
  induction fuel with
  | zero => intro pos h; omega
  | succ n ih =>
    intro pos hfuel
    by_cases hpos : pos < tokens.length
    · set np := splitNextPos size ov tokens.length pos with hnp
      have hadv : pos < np := by
        rw [hnp, splitNextPos]
        split <;> omega
      obtain ⟨cs', hgo, hhead, hjoin, hchain⟩ := ih np (by omega)
      refine ⟨((tokens.drop pos).take size) :: cs', ?_, ⟨rfl, hpos⟩, ?_, ?_⟩
      · simp [splitTokensGo, hpos, ← hnp, hgo]
      · by_cases hmore : pos + size < tokens.length
        · have hnpval : np = if 0 < ov then pos + size - ov else pos + size := by
            rw [hnp, splitNextPos]
            by_cases h0 : 0 < ov <;> simp [hmore, h0]
          have hnplt : np < tokens.length := by
            rw [hnpval]; split <;> omega
          obtain ⟨c', rest, rfl⟩ : ∃ c' rest, cs' = c' :: rest := by
            cases cs' with
            | nil => simp only at hhead; omega
            | cons c' rest => exact ⟨c', rest, rfl⟩
          obtain ⟨hc', -⟩ := hhead
          have hclen : ov ≤ c'.length := by
            rw [hc']
            simp only [List.length_take, List.length_drop]
            rw [hnpval]
            split <;> omega
          have hjoin' : c' ++ (rest.map (List.drop ov)).flatten = tokens.drop np := by
            simpa [joinDropOverlap] using hjoin
          have hstep : joinDropOverlap ov ((tokens.drop pos).take size :: c' :: rest) =
              (tokens.drop pos).take size ++
                List.drop ov (c' ++ (rest.map (List.drop ov)).flatten) := by
            simp [joinDropOverlap, List.drop_append_of_le_length hclen]
          rw [hstep, hjoin']
          have hdd : List.drop ov (tokens.drop np) = tokens.drop (pos + size) := by
            rw [List.drop_drop]
            congr 1
            rw [hnpval]
            split <;> omega
          rw [hdd]
          have := List.take_append_drop size (tokens.drop pos)
          rw [List.drop_drop] at this
          exact this
        · have hnpval : np = pos + size := by
            rw [hnp, splitNextPos]
            simp [hmore]
          obtain rfl : cs' = [] := by
            cases cs' with
            | nil => rfl
            | cons c' rest =>
              obtain ⟨-, hlt⟩ := hhead
              omega
          simp only [joinDropOverlap, List.map_nil, List.flatten_nil, List.append_nil]
          exact List.take_of_length_le (by simp; omega)
      · by_cases hmore : pos + size < tokens.length
        · have hnpval : np = if 0 < ov then pos + size - ov else pos + size := by
            rw [hnp, splitNextPos]
            by_cases h0 : 0 < ov <;> simp [hmore, h0]
          obtain ⟨c', rest, rfl⟩ : ∃ c' rest, cs' = c' :: rest := by
            cases cs' with
            | nil =>
              simp only at hhead
              rw [hnpval] at hhead
              split at hhead <;> omega
            | cons c' rest => exact ⟨c', rest, rfl⟩
          obtain ⟨hc', -⟩ := hhead
          refine List.chain'_cons.mpr ⟨?_, hchain⟩
          unfold windowOverlapRel
          have hlenc : ((tokens.drop pos).take size).length = size := by
            simp; omega
          rw [hlenc, hc', List.take_take, Nat.min_def, if_pos (Nat.le_of_lt hov),
            List.drop_take, List.drop_drop]
          congr 1
          · omega
          · congr 1
            rw [hnpval]
            split <;> omega
        · obtain rfl : cs' = [] := by
            cases cs' with
            | nil => rfl
            | cons c' rest =>
              obtain ⟨-, hlt⟩ := hhead
              have : np = pos + size := by
                rw [hnp, splitNextPos]
                simp [hmore]
              omega
          simp
    · refine ⟨[], ?_, ?_, ?_, ?_⟩
      · simp [splitTokensGo, hpos]
      · simpa using Nat.le_of_not_lt hpos
      · simp [joinDropOverlap, List.drop_eq_nil_of_le (Nat.le_of_not_lt hpos)]
      · simp

/-- C4: for every token list, chunk size and overlap with
`overlap < chunk_size`, `_split_tokens` succeeds, each window after the
first starts exactly `overlap` tokens before the previous window's end
(its leading `overlap` tokens repeat the previous window's trailing
ones), and concatenating the windows after dropping each later window's
leading `overlap` tokens reproduces the token sequence; in particular 25
tokens with size 10 and overlap 2 give exactly the windows `[0,10)`,
`[8,18)`, `[16,25)`. -/
theorem splitTokens_coverage :
    (∀ (size ov : Nat) (tokens : List Nat), ov < size →
      ∃ cs, splitTokens size ov tokens = some cs ∧
        joinDropOverlap ov cs = tokens ∧
        List.Chain' (windowOverlapRel ov) cs) ∧
      splitTokens 10 2 (List.range 25) =
        some [List.range' 0 10, List.range' 8 10, List.range' 16 9] := by
  constructor
  · intro size ov tokens hov
    obtain ⟨cs, hgo, -, hjoin, hchain⟩ :=
      splitTokensGo_sound size ov tokens hov (tokens.length + 1) 0 (by omega)
    exact ⟨cs, hgo, by simpa using hjoin, hchain⟩
  · decide

/-- C4 witness: the general coverage statement applied to the 25-token
scenario. -/
theorem splitTokens_coverage_witness :
    ∃ cs, splitTokens 10 2 (List.range 25) = some cs ∧
      joinDropOverlap 2 cs = List.range 25 ∧
      List.Chain' (windowOverlapRel 2) cs :=
  splitTokens_coverage.1 10 2 (List.range 25) (by decide)

/-- C7 counterexample: the claim says a file whose content contains the
dangerous character `0x00` is demoted to `excluded` under default flags,
but `FileReader._clean_content` removes null characters before the
check, so `"a\x00b"` is bundled as an included file with body `"ab\n"`. -/
theorem unsafeDefault_counterexample :
    (['a', Char.ofNat 0, 'b'].any isDangerousChar = true) ∧
      (processOne { } [] ⟨0, ['a', Char.ofNat 0, 'b']⟩).2 =
        ⟨0, Op.included, none, some ['a', 'b', '\n']⟩ ∧
      Op.included ≠ Op.excluded := by
  refine ⟨by decide, by decide, by decide⟩

/-- C7 (amended): null characters are removed when the file is read, and
the dangerous-character tri-state applies to the cleaned content: with
neither flag the file is demoted to `excluded` with no body; with
`allow_unsafe` the cleaned content is written unchanged; with
`sanitize_unsafe` every dangerous character of it becomes a bracketed
mnemonic and every other character is kept; setting both flags fails
configuration validation. -/
theorem unsafeTriState (cfg : BundleConfig) (f : SimFile)
    (hne : f.raw ≠ [])
    (hdanger : hasDangerousChars (cleanContent f.raw) = true) :
    ((cfg.allowUnsafe = false ∧ cfg.sanitizeUnsafe = false) →
      (processOne cfg [] f).2 = ⟨f.path, Op.excluded, none, none⟩) ∧
    (cfg.allowUnsafe = true →
      (processOne cfg [] f).2 =
        ⟨f.path, Op.included, none, some (writeSingleBody (cleanContent f.raw))⟩) ∧
    ((cfg.allowUnsafe = false ∧ cfg.sanitizeUnsafe = true) →
      (processOne cfg [] f).2 =
        ⟨f.path, Op.included, none,
          some (writeSingleBody (sanitizeDangerousChars (cleanContent f.raw)))⟩) ∧
    sanitizeDangerousChars (cleanContent f.raw) =
      ((cleanContent f.raw).map
        (fun c => if isDangerousChar c then '[' :: (controlCharName c.toNat ++ [']'])
          else [c])).flatten ∧
    validateConfig { allowUnsafe := true, sanitizeUnsafe := true } = false := by
  refine ⟨?_, ?_, ?_, ?_, rfl⟩
  · rintro ⟨h1, h2⟩
    simp [processOne, hne, lookupHash, hdanger, h1, h2]
  · intro h1
    simp [processOne, hne, lookupHash, hdanger, h1]
  · rintro ⟨h1, h2⟩
    simp [processOne, hne, lookupHash, hdanger, h1, h2]
  · unfold sanitizeDangerousChars
    congr 1
    apply List.map_congr_left
    intro c hc
    unfold sanitizeCharPiece isDangerousChar
    by_cases h1 : c.toNat ≤ 0x1F
    · by_cases h2 : isSafeWhitespaceCode c.toNat <;> simp [h1, h2]
    · simp [h1]

/-- C7 witness: a file containing only `0x1B` is excluded under default
flags. -/
theorem unsafeTriState_witness :
    (processOne { } [] ⟨0, [Char.ofNat 27]⟩).2 = ⟨0, Op.excluded, none, none⟩ :=
  (unsafeTriState { } ⟨0, [Char.ofNat 27]⟩ (by decide) (by decide)).1 ⟨rfl, rfl⟩

theorem processFilesGo_dedup (cfg : BundleConfig) :
    ∀ (files : List SimFile) (prev : List SimFile) (hm : List (Str × Nat)),
      hashMapInv hm prev →
      (∀ f ∈ files, hasDangerousChars (cleanContent f.raw) = false) →
      processFilesGo cfg hm files = specDedupProcess prev files := by
  intro files
  induction files with
  | nil => intro prev hm _ _; rfl
  | cons f rest ih =>
    intro prev hm hinv hsafe
    have hsafe_f := hsafe f (by simp)
    have hsafe_rest : ∀ g ∈ rest, hasDangerousChars (cleanContent g.raw) = false :=
      fun g hg => hsafe g (by simp [hg])
    by_cases hraw : f.raw = []
    · have hstep : processOne cfg hm f = (hm, ⟨f.path, Op.empty, none, some ['\n']⟩) := by
        simp [processOne, hraw]
      have hspec : specDedupEmit prev f = ⟨f.path, Op.empty, none, some ['\n']⟩ := by
        simp [specDedupEmit, hraw]
      have hinv2 : hashMapInv hm (prev ++ [f]) := by
        intro c hc
        rw [hinv c hc, List.find?_append]
        have hnone : [f].find? (fun g => decide (g.raw = c)) = none := by
          simp [List.find?_eq_none]
          exact fun h => hc (by rw [← h, hraw])
        rw [hnone, Option.or_none]
      simp only [processFilesGo, specDedupProcess, hstep, hspec]
      exact congrArg _ (ih (prev ++ [f]) hm hinv2 hsafe_rest)
    · cases hlook : lookupHash hm f.raw with
      | some orig =>
        obtain ⟨g, hfind, hpath⟩ : ∃ g,
            prev.find? (fun g => decide (g.raw = f.raw)) = some g ∧ g.path = orig := by
          have := hinv f.raw hraw
          rw [hlook] at this
          cases hf : prev.find? (fun g => decide (g.raw = f.raw)) with
          | none => rw [hf] at this; simp at this
          | some g => rw [hf] at this; simp at this; exact ⟨g, rfl, this.symm⟩
        have hstep : processOne cfg hm f = (hm, ⟨f.path, Op.duplicate, some orig, none⟩) := by
          simp [processOne, hraw, hlook]
        have hspec : specDedupEmit prev f = ⟨f.path, Op.duplicate, some orig, none⟩ := by
          simp [specDedupEmit, hraw, hfind, hpath]
        have hinv2 : hashMapInv hm (prev ++ [f]) := by
          intro c hc
          rw [hinv c hc, List.find?_append]
          cases hf2 : prev.find? (fun g => decide (g.raw = c)) with
          | some g2 => simp
          | none =>
            have hnone : [f].find? (fun g => decide (g.raw = c)) = none := by
              simp [List.find?_eq_none]
              intro hEq
              rw [hEq] at hfind
              rw [hfind] at hf2
              exact Option.noConfusion hf2
            rw [hnone]
            simp
        simp only [processFilesGo, specDedupProcess, hstep, hspec]
        exact congrArg _ (ih (prev ++ [f]) hm hinv2 hsafe_rest)
      | none =>
        have hfind : prev.find? (fun g => decide (g.raw = f.raw)) = none := by
          have := hinv f.raw hraw
          rw [hlook] at this
          cases hf : prev.find? (fun g => decide (g.raw = f.raw)) with
          | none => rfl
          | some g => rw [hf] at this; simp at this
        have hstep : processOne cfg hm f = ((f.raw, f.path) :: hm,
            ⟨f.path, Op.included, none, some (writeSingleBody (cleanContent f.raw))⟩) := by
          simp [processOne, hraw, hlook, hsafe_f]
        have hspec : specDedupEmit prev f =
            ⟨f.path, Op.included, none, some (writeSingleBody (cleanContent f.raw))⟩ := by
          simp [specDedupEmit, hraw, hfind]
        have hinv2 : hashMapInv ((f.raw, f.path) :: hm) (prev ++ [f]) := by
          intro c hc
          rw [List.find?_append]
          by_cases hceq : f.raw = c
          · subst hceq
            rw [hfind]
            simp [lookupHash, List.find?]
          · have hl : lookupHash ((f.raw, f.path) :: hm) c = lookupHash hm c := by
              simp [lookupHash, hceq]
            rw [hl, hinv c hc]
            have hnone : [f].find? (fun g => decide (g.raw = c)) = none := by
              simp [List.find?_eq_none]
              exact hceq
            rw [hnone]
            cases prev.find? (fun g => decide (g.raw = c)) <;> simp
        simp only [processFilesGo, specDedupProcess, hstep, hspec]
        exact congrArg _ (ih (prev ++ [f]) ((f.raw, f.path) :: hm) hinv2 hsafe_rest)

/-- C5 (amended): in a run where no file is demoted by the
dangerous-character policy (every content is safe after null cleanup),
the bundler's output is exactly the spec-side dedup run: the
first file of each content hash is `included` with a body, and every
later file with that hash is a `duplicate` entry referencing the
first-seen path with no body. -/
theorem processFiles_dedup (cfg : BundleConfig) (files : List SimFile)
    (hsafe : ∀ f ∈ files, hasDangerousChars (cleanContent f.raw) = false) :
    processFiles cfg files = specDedupProcess [] files :=
  processFilesGo_dedup cfg files [] []
    (fun c _ => by simp [lookupHash, List.find?]) hsafe

/-- C5 witness: two identical safe files give one included entry with a
body and one duplicate entry referencing it. -/
theorem processFiles_dedup_witness :
    processFiles { } [⟨0, ['x']⟩, ⟨1, ['x']⟩] = specDedupProcess [] [⟨0, ['x']⟩, ⟨1, ['x']⟩] ∧
      processFiles { } [⟨0, ['x']⟩, ⟨1, ['x']⟩] =
        [⟨0, Op.included, none, some ['x', '\n']⟩, ⟨1, Op.duplicate, some 0, none⟩] :=
  ⟨processFiles_dedup { } [⟨0, ['x']⟩, ⟨1, ['x']⟩] (by decide), by decide⟩

/-- C5 counterexample: two identical files whose content is dangerous
under default flags share one content hash, yet no file of that hash is
`included` — the first is demoted to `excluded` (its hash stays
registered) and the second still becomes a bodiless `duplicate`
referencing it. -/
theorem processFiles_dedup_counterexample :
    processFiles { } [⟨0, [Char.ofNat 27]⟩, ⟨1, [Char.ofNat 27]⟩] =
        [⟨0, Op.excluded, none, none⟩, ⟨1, Op.duplicate, some 0, none⟩] ∧
      ∀ e ∈ processFiles { } [⟨0, [Char.ofNat 27]⟩, ⟨1, [Char.ofNat 27]⟩],
        e.op ≠ Op.included := by
  refine ⟨by decide, by decide⟩

/-- C8 counterexample: the claim says zero content bytes lie between the
BOF marker line and the EOF marker line and that a parser recovers empty
content; the block of `_write_empty_file` has one newline byte between
the markers, and the parser recovers `"\n"`, not empty content. -/
theorem writeEmptyFileBlock_counterexample :
    parseEntryContent (readLines writeEmptyFileBlock) = some ['\n'] ∧
      (['\n'] : Str) ≠ [] := by
  refine ⟨by decide, by decide⟩

/-- C8 (amended): an empty file's block is BOF line, one blank line (the
forced trailing newline), EOF line; the parser recovers `"\n"` for it,
and extraction converts that to empty content exactly when the entry's
metadata marks it empty (`op = 0` or `size = 0B`). -/
theorem writeEmptyFileBlock_roundTrip :
    parseEntryContent (readLines writeEmptyFileBlock) = some ['\n'] ∧
      isEmptyFileMeta [("op".toList, ['0'])] = true ∧
      extractAdjustContent true ['\n'] = [] ∧
      extractAdjustContent false ['\n'] = ['\n'] := by
  refine ⟨by decide, by decide, by decide, by decide⟩

theorem handleChunkOverlap_eq_none (a b : Str) (k : Nat)
    (h : a.length < k ∨ (pyLogical a).length < k ∨ b.length < k ∨
      (pyLogical a).drop ((pyLogical a).length - k) ≠ b.take k) :
    handleChunkOverlap a b k = none := by
  rcases h with h | h | h | h
  · simp [handleChunkOverlap, h]
  · by_cases h1 : a.length < k ∨ b.length < k
    · simp [handleChunkOverlap, h1]
    · simp [handleChunkOverlap, h1, h]
  · simp [handleChunkOverlap, h]
  · by_cases h1 : a.length < k ∨ b.length < k
    · simp [handleChunkOverlap, h1]
    · by_cases h2 : (pyLogical a).length < k
      · simp [handleChunkOverlap, h1, h2]
      · simp [handleChunkOverlap, h1, h2, h]

/-- C9 (amended): reassembly of any validated chunk group completes
without an exception; a later chunk whose declared overlap cannot be
verified — either side too short, or the byte spans differ — is appended
in full, giving the raw concatenation; a chunk whose spans match and
whose content is strictly longer than the overlap contributes only its
content past the overlap (a chunk exactly as long as its overlap falls
back to the full content: see the counterexample). -/
theorem reassembleChunks_fallback :
    (∀ entries : List ChunkEntry, entries ≠ [] →
      entries.all (fun e => e.isChunk) = true → totalOk entries = true →
      ∃ r, reassembleChunks entries = Except.ok r) ∧
    (∀ (e1 e2 : ChunkEntry) (k : Nat),
      e1.isChunk = true → e2.isChunk = true → e1.totalChunks = some 2 →
      e2.overlapPrev = some k → 0 < k →
      (e1.content.length < k ∨ (pyLogical e1.content).length < k ∨
        e2.content.length < k ∨
        (pyLogical e1.content).drop ((pyLogical e1.content).length - k) ≠
          e2.content.take k) →
      reassembleChunks [e1, e2] = Except.ok (e1.content ++ e2.content)) ∧
    (∀ (e1 e2 : ChunkEntry) (k : Nat),
      e1.isChunk = true → e2.isChunk = true → e1.totalChunks = some 2 →
      e2.overlapPrev = some k → 0 < k → k < e2.content.length →
      ¬ e1.content.length < k → ¬ (pyLogical e1.content).length < k →
      (pyLogical e1.content).drop ((pyLogical e1.content).length - k) =
        e2.content.take k →
      reassembleChunks [e1, e2] = Except.ok (e1.content ++ e2.content.drop k)) := by
  refine ⟨?_, ?_, ?_⟩
  · intro entries hne hall htot
    cases entries with
    | nil => exact absurd rfl hne
    | cons e0 rest =>
      refine ⟨reassembleGo e0.content rest, ?_⟩
      simp [reassembleChunks, hall, htot]
  · intro e1 e2 k h1 h2 htot hov hk hmis
    have hnone := handleChunkOverlap_eq_none e1.content e2.content k hmis
    have hall : ([e1, e2]).all (fun e => e.isChunk) = true := by simp [h1, h2]
    have htotOk : totalOk [e1, e2] = true := by simp [totalOk, htot]
    simp [reassembleChunks, hall, htotOk, reassembleGo, chunkAppend, hov, hk, hnone]
  · intro e1 e2 k h1 h2 htot hov hk hlt ha hl hspan
    have hsome : handleChunkOverlap e1.content e2.content k =
        some (e2.content.drop k) := by
      have hcond : ¬ (e1.content.length < k ∨ e2.content.length < k) := by
        push_neg
        exact ⟨Nat.le_of_not_lt ha, by omega⟩
      simp [handleChunkOverlap, hcond, hl, hspan]
    have hne : e2.content.drop k ≠ [] := by
      intro hdrop
      have := List.drop_eq_nil_iff.mp hdrop
      omega
    have hall : ([e1, e2]).all (fun e => e.isChunk) = true := by simp [h1, h2]
    have htotOk : totalOk [e1, e2] = true := by simp [totalOk, htot]
    simp [reassembleChunks, hall, htotOk, reassembleGo, chunkAppend, hov, hk, hsome, hne]

/-- C9 witness: a two-chunk group with a wrong declared overlap completes
and yields the raw concatenation. -/
theorem reassembleChunks_fallback_witness :
    reassembleChunks [⟨"xy".toList, true, some 1, some 2, none⟩,
        ⟨"zw".toList, true, some 2, some 2, some 1⟩] =
      Except.ok ("xy".toList ++ "zw".toList) :=
  reassembleChunks_fallback.2.1
    ⟨"xy".toList, true, some 1, some 2, none⟩
    ⟨"zw".toList, true, some 2, some 2, some 1⟩ 1
    rfl rfl rfl rfl (by decide) (by decide)

/-- C9 counterexample: when the spans match but the chunk is exactly as
long as the declared overlap, the claim says nothing is appended (result
`"ab"`); the caller's `if non_overlapping:` treats the empty non-overlap
string as a failure and appends the full chunk, giving `"abb"`. -/
theorem reassembleChunks_counterexample :
    (pyLogical "ab".toList).drop ((pyLogical "ab".toList).length - 1) =
        "b".toList.take 1 ∧
      reassembleChunks [⟨"ab".toList, true, some 1, some 2, none⟩,
          ⟨"b".toList, true, some 2, some 2, some 1⟩] = Except.ok "abb".toList ∧
      "abb".toList ≠ "ab".toList ++ "b".toList.drop 1 := by
  refine ⟨by decide, by rfl, by decide⟩

theorem prefix_dropLast {α : Type} (root stack : List α)
    (h : root <+: stack) (hlen : root.length < stack.length) :
    root <+: stack.dropLast := by
  obtain ⟨m, rfl⟩ := h
  have hm : m ≠ [] := by
    intro hm
    subst hm
    simp at hlen
  rcases List.eq_nil_or_concat m with rfl | ⟨m', x, rfl⟩
  · exact absurd rfl hm
  · rw [List.concat_eq_append, ← List.append_assoc, List.dropLast_concat]
    exact ⟨m', rfl⟩

theorem resolveSegs_keeps_root (root : List String) :
    ∀ (segs : List String) (stack : List String) (d : Nat),
      escapesRoot d segs = false → root <+: stack →
      root.length + d ≤ stack.length →
      root <+: resolveSegs stack segs := by
  intro segs
  induction segs with
  | nil => intro stack d _ hpre _; exact hpre
  | cons s rest ih =>
    intro stack d hesc hpre hlen
    by_cases hdd : s = ".."
    · have hd0 : d ≠ 0 := by
        intro h0
        subst h0
        rw [hdd] at hesc
        simp [escapesRoot] at hesc
      have hesc2 : escapesRoot (d - 1) rest = false := by
        rw [hdd] at hesc
        simpa [escapesRoot, hd0] using hesc
      rw [resolveSegs, if_pos hdd]
      refine ih stack.dropLast (d - 1) hesc2 ?_ ?_
      · exact prefix_dropLast root stack hpre (by omega)
      · have := stack.length.pred_le
        rw [List.length_dropLast]
        omega
    · by_cases hdot : s = "." ∨ s = ""
      · have hesc2 : escapesRoot d rest = false := by
          simpa [escapesRoot, hdd, hdot] using hesc
        rw [resolveSegs, if_neg hdd, if_pos hdot]
        exact ih stack d hesc2 hpre hlen
      · have hesc2 : escapesRoot (d + 1) rest = false := by
          simpa [escapesRoot, hdd, hdot] using hesc
        rw [resolveSegs, if_neg hdd, if_neg hdot]
        refine ih (stack ++ [s]) (d + 1) hesc2 (hpre.trans (List.prefix_append stack [s])) ?_
        simp
        omega

/-- C6: extraction writes exactly the resolved targets of the entries
that pass the safety gate — an unsafe relative path (absolute, or
escaping the root via `..`) is skipped while every other entry of the
same run is still written — and every written target stays below the
output root. -/
theorem extractFiles_path_containment :
    (∀ (root : List String) (entries : List RelPath),
      extractFilesTargets root entries =
        (entries.filter (fun e => isSafePath e)).map (resolveTarget root)) ∧
    (∀ (root : List String) (entries : List RelPath) (t : List String),
      t ∈ extractFilesTargets root entries → root <+: t) := by
  constructor
  · intro root entries
    induction entries with
    | nil => rfl
    | cons e rest ih =>
      by_cases he : isSafePath e
      · simp [extractFilesTargets, List.filterMap_cons, he, List.filter_cons] at *
        exact ih
      · simp [extractFilesTargets, List.filterMap_cons, he, List.filter_cons] at *
        exact ih
  · intro root entries t ht
    obtain ⟨e, -, hsome⟩ := List.mem_filterMap.mp ht
    by_cases he : isSafePath e
    · rw [if_pos he] at hsome
      obtain ⟨habs2, hesc2⟩ : e.isAbs = false ∧ escapesRoot 0 e.segs = false := by
        simpa [isSafePath] using he
      have := resolveSegs_keeps_root root e.segs root 0 hesc2
        (List.prefix_refl root) (by omega)
      rw [← Option.some_inj.mp hsome, resolveTarget, habs2]
      simpa using this
    · rw [if_neg he] at hsome
      exact Option.noConfusion hsome

/-- C6 witness: with root `out`, the entries `../../etc/passwd` and `a`
extract to exactly the one safe target `out/a`, which stays below the
root. -/
theorem extractFiles_path_containment_witness :
    extractFilesTargets ["out"] [⟨false, ["..", "..", "etc", "passwd"]⟩, ⟨false, ["a"]⟩] =
        [["out", "a"]] ∧
      ["out"] <+: ["out", "a"] :=
  ⟨by decide, extractFiles_path_containment.2 ["out"]
    [⟨false, ["..", "..", "etc", "passwd"]⟩, ⟨false, ["a"]⟩] ["out", "a"] (by decide)⟩

/-- C10: with `force_overwrite` and `dry_run` both off, `extract_file`
returns `False` for an existing target and leaves the whole filesystem
— in particular that file's content — byte-for-byte unchanged; every
pre-existing file keeps its content after any call; and a write that
reports success only happens at a target that did not exist. -/
theorem extractFile_no_overwrite (fs : List (List String × Str))
    (target : List String) (content : Str) (isEmpty : Bool) :
    ((fsLookup fs target).isSome →
      extractFile fs false false target content isEmpty = (fs, false)) ∧
    (∀ p c0, fsLookup fs p = some c0 →
      fsLookup (extractFile fs false false target content isEmpty).1 p = some c0) ∧
    ((extractFile fs false false target content isEmpty).2 = true →
      fsLookup fs target = none) := by
  by_cases hex : (fsLookup fs target).isSome
  · refine ⟨fun _ => by simp [extractFile, hex], ?_, ?_⟩
    · intro p c0 hp
      simp [extractFile, hex, hp]
    · intro habs
      simp [extractFile, hex] at habs
  · have hnone : fsLookup fs target = none := Option.not_isSome_iff_eq_none.mp hex
    refine ⟨fun h => absurd h hex, ?_, fun _ => hnone⟩
    intro p c0 hp
    have hne : target ≠ p := by
      intro h
      rw [h] at hnone
      rw [hnone] at hp
      exact Option.noConfusion hp
    simp [extractFile, hex, fsLookup, hne]
    exact hp

/-- C10 witness: an existing `a.txt` is skipped with result `False` and
keeps its content. -/
theorem extractFile_no_overwrite_witness :
    extractFile [(["a.txt"], ['x'])] false false ["a.txt"] ['y'] false =
      ([(["a.txt"], ['x'])], false) :=
  (extractFile_no_overwrite [(["a.txt"], ['x'])] ["a.txt"] ['y'] false).1 (by decide)

/-- C2: the writer joins the (alphabetically sorted) metadata items with
`" | "`, not the `"; "` of the claimed grammar, and the parser's
splitter — which cuts at `;` — recovers from that string a single
mangled `checksum` entry: the keys `op` and `size` (and `overlap_prev`
for chunks) are unrecoverable, while the same items joined with `"; "`
as the grammar prescribes would parse back exactly. -/
theorem formatMetadata_separator_bug :
    formatMetadataLine 5 "src/module.py".toList exampleIncludedMeta =
      ("### FILE 5: src/module.py | checksum=a1b2c3d4e5f6..."
        ++ " | modified=2024-05-02T10:30:00 | op=+"
        ++ " | size=1024 | tokens=7 | type=x-python ###").toList ∧
      formatMetadataStr exampleIncludedMeta =
      ("checksum=a1b2c3d4e5f6... | modified=2024-05-02T10:30:00 | op=+"
        ++ " | size=1024 | tokens=7 | type=x-python").toList ∧
      lookupMeta (parseMetadataKvStr (formatMetadataStr exampleIncludedMeta))
        "op".toList = none ∧
      lookupMeta (parseMetadataKvStr (formatMetadataStr exampleIncludedMeta))
        "size".toList = none ∧
      (parseMetadataKvStr (formatMetadataStr exampleIncludedMeta)).map Prod.fst =
        ["checksum".toList] ∧
      lookupMeta (parseMetadataKvStr
          (joinSep "; ".toList (sortItems (metadataItems exampleIncludedMeta))))
        "op".toList = some ['+'] ∧
      lookupMeta (parseMetadataKvStr
          (joinSep "; ".toList (sortItems (metadataItems exampleIncludedMeta))))
        "size".toList = some "1024".toList := by
  refine ⟨by decide, by decide, by decide, by decide, by decide, by decide, by decide⟩
